import Mathlib

/-
Verification of the winlogbeat beater core (`winlogbeat/beater/winlogbeat.go`):
the per-source polling worker `processEventLog`, the coordinator `Run`, and
`Stop`.  The worker loop is embedded as a function from a script of iteration
environments (whether the `done` channel is closed at the `select` check, what
`api.Read()` returns, and what `client.PublishEvents` returns) to the list of
observable actions the worker performs, together with the way the loop exited.
-/

namespace Beater

/-- An event-log record as returned by `api.Read()`: its `RecordID` and its
creation time (`TimeCreated.SystemTime.UTC()` collapsed to one numeric
timestamp). -/
structure Record where
  recordID : Nat
  timeCreated : Nat
deriving DecidableEq, Repr

/-- The structured event form produced by `lr.ToMapStr()`; it carries the
record identifier and timestamp of the record it came from. -/
structure MapStr where
  recordID : Nat
  timeCreated : Nat
deriving DecidableEq, Repr

/-- `lr.ToMapStr()`. -/
def Record.toMapStr (r : Record) : MapStr :=
  ⟨r.recordID, r.timeCreated⟩

/-- Result of one `api.Read()` call: an error, or a (possibly empty) batch. -/
inductive ReadResult where
  | err
  | ok (records : List Record)
deriving DecidableEq, Repr

/-- Environment of one loop iteration: whether `eb.done` is closed at the
`select` check at the top, what `Read` returns, and what `PublishEvents`
would return for this batch. -/
structure Iteration where
  done : Bool
  read : ReadResult
  publishOk : Bool
deriving DecidableEq, Repr

/-- How the worker loop exited; `running` means the script ended while the
loop was still going. -/
inductive ExitKind where
  | shutdown
  | readErr
  | publishFail
  | running
deriving DecidableEq, Repr

/-- Observable actions of the beater, in program order. -/
inductive Action where
  | openSource (recordNumber : Nat)
  | logOpenError
  | logReadError
  | sleep (seconds : Nat)
  | publish (events : List MapStr) (ok : Bool)
  | persist (source : String) (recordID : Nat) (timestamp : Nat)
  | logStopProcessing
  | closeSource
  | logCloseError
  | storeShutdown
deriving DecidableEq, Repr

/-- The `for` loop of `processEventLog` (winlogbeat.go lines 205-248).  Each
iteration: check `eb.done`; `api.Read()`; on error log and break; on an empty
batch sleep one second and continue; otherwise transform the records with
`ToMapStr`, publish synchronously, and on success `Persist` the last record's
id and timestamp before looping; on publish failure return immediately. -/
def loop (name : String) : List Iteration → List Action × ExitKind
  | [] => ([], .running)
  | it :: rest =>
    if it.done then ([], .shutdown)
    else
      match it.read with
      | .err => ([.logReadError], .readErr)
      | .ok [] => (.sleep 1 :: (loop name rest).1, (loop name rest).2)
      | .ok (r :: rs) =>
        if it.publishOk then
          (.publish ((r :: rs).map Record.toMapStr) true ::
            .persist name (rs.getLastD r).recordID (rs.getLastD r).timeCreated ::
            (loop name rest).1,
           (loop name rest).2)
        else
          ([.publish ((r :: rs).map Record.toMapStr) false], .publishFail)

/-- Per-source persisted state, as consumed at the call sites
(`api.Open(state.RecordNumber)`, `checkpoint.Persist(name, recordID, time)`).
The `checkpoint` package itself is vendored outside this tree; a missing Go
map entry yields the zero value, here `⟨0, 0⟩`. -/
structure EventLogState where
  recordNumber : Nat
  timestamp : Nat
deriving DecidableEq, Repr

/-- Script for one event log: its name, whether `Open` fails, whether `Close`
fails, and the environments of the loop iterations it will run through. -/
structure LogScript where
  name : String
  openErr : Bool
  closeErr : Bool
  iters : List Iteration
deriving DecidableEq, Repr

/-- The deferred cleanup of `processEventLog` (lines 194-201): log, call
`api.Close()`, and log a warning if closing failed. -/
def closeSuffix (closeErr : Bool) : List Action :=
  .logStopProcessing :: .closeSource :: (if closeErr then [.logCloseError] else [])

/-- `Winlogbeat.processEventLog` (lines 181-249): call `api.Open` with the
checkpointed record number; if that fails, log a warning and return without
registering the deferred close.  Otherwise run the loop; the deferred cleanup
runs whenever the function returns (every exit of the loop). -/
def processEventLog (s : LogScript) (state : EventLogState) : List Action :=
  if s.openErr then
    [.openSource state.recordNumber, .logOpenError]
  else
    .openSource state.recordNumber ::
      ((loop s.name s.iters).1 ++
        (if (loop s.name s.iters).2 = ExitKind.running then []
         else closeSuffix s.closeErr))

/-- `state, _ := persistedState[log.Name()]` (line 141): a Go map lookup that
yields the zero value when the key is absent. -/
def statesLookup (persisted : List (String × EventLogState)) (name : String) :
    EventLogState :=
  (persisted.lookup name).getD ⟨0, 0⟩

/-- The traces of all the per-log workers started by `Run` (lines 140-150). -/
def workerTraces (persisted : List (String × EventLogState))
    (logs : List LogScript) : List (List Action) :=
  logs.map fun s => processEventLog s (statesLookup persisted s.name)

/-- `Winlogbeat.Run` (lines 132-155): read the persisted states, start one
worker per event log, `wg.Wait()` until all have finished, then call
`eb.checkpoint.Shutdown()`.  The workers' actions all happen before the
store shutdown. -/
def Run (persisted : List (String × EventLogState)) (logs : List LogScript) :
    List Action :=
  (workerTraces persisted logs).flatten ++ [.storeShutdown]

/-- State of the `eb.done` channel: nil (before `Setup`), open, or closed. -/
inductive ChanState where
  | nilChan
  | openChan
  | closedChan
deriving DecidableEq, Repr

/-- The state `Stop` acts on: the `done` channel and whether the publisher
client has been closed. -/
structure StopState where
  done : ChanState
  clientClosed : Bool
deriving DecidableEq, Repr

/-- State right after `Setup` (line 91): `eb.done = make(chan struct{})`. -/
def setupState : StopState :=
  ⟨.openChan, false⟩

/-- `Winlogbeat.Stop` (lines 173-179): if `eb.done != nil`, `close(eb.done)`
and close the client.  `none` models a runtime fault: in Go, closing an
already-closed channel panics. -/
def Stop (s : StopState) : Option StopState :=
  match s.done with
  | .nilChan => some s
  | .openChan => some ⟨.closedChan, true⟩
  | .closedChan => none

/-- The record ids persisted by a trace, in order. -/
def persistedIDs (trace : List Action) : List Nat :=
  trace.filterMap fun a =>
    match a with
    | .persist _ id _ => some id
    | _ => none

/-- The concatenation of all batches handed to `PublishEvents`, in order. -/
def publishedEventsOf (trace : List Action) : List MapStr :=
  trace.flatMap fun a =>
    match a with
    | .publish evs _ => evs
    | _ => []

/-- All records the source yields over a script, in yield order. -/
def scriptRecords (iters : List Iteration) : List Record :=
  iters.flatMap fun it =>
    match it.read with
    | .ok rs => rs
    | .err => []

/-- Concrete demonstration script used to instantiate the theorems: source
"App" yields the batch [rec 1, rec 2], then [rec 3], then an empty batch,
and then the shutdown signal is observed. -/
def demoIters : List Iteration :=
  [⟨false, .ok [⟨1, 10⟩, ⟨2, 11⟩], true⟩,
   ⟨false, .ok [⟨3, 12⟩], true⟩,
   ⟨false, .ok [], true⟩,
   ⟨true, .ok [], true⟩]

/-- Demonstration log script wrapping `demoIters`. -/
def demoScript : LogScript :=
  ⟨"App", false, false, demoIters⟩

/-- Script whose second batch hits a publish failure (shutdown racing). -/
def demoFailIters : List Iteration :=
  [⟨false, .ok [⟨1, 10⟩, ⟨2, 11⟩], true⟩,
   ⟨false, .ok [⟨4, 13⟩, ⟨5, 14⟩], false⟩]

/-- Demonstration log script wrapping `demoFailIters`. -/
def demoFailScript : LogScript :=
  ⟨"App", false, false, demoFailIters⟩

/-- Script whose source fails to open. -/
def demoOpenFailScript : LogScript :=
  ⟨"Bad", true, false, demoIters⟩

/-- Script that hits a read error on its second iteration. -/
def demoReadErrScript : LogScript :=
  ⟨"Sys", false, false, [⟨false, .ok [⟨1, 10⟩], true⟩, ⟨false, .err, true⟩]⟩

end Beater

namespace Beater

theorem mem_closeSuffix {a : Action} {b : Bool} (h : a ∈ closeSuffix b) :
    a = .logStopProcessing ∨ a = .closeSource ∨ a = .logCloseError := by
  cases b <;> simp [closeSuffix] at h <;> tauto

theorem loop_no_storeShutdown (name : String) (iters : List Iteration) :
    Action.storeShutdown ∉ (loop name iters).1 := by
  induction iters with
  | nil => simp [loop]
  | cons it rest ih =>
    obtain ⟨d, rd, pb⟩ := it
    cases d
    · rcases rd with _ | (_ | ⟨r, rs⟩)
      · simp [loop]
      · simp [loop]; exact ih
      · cases pb
        · simp [loop]
        · simp [loop]; exact ih
    · simp [loop]

theorem processEventLog_no_storeShutdown (s : LogScript) (st : EventLogState) :
    Action.storeShutdown ∉ processEventLog s st := by
  cases hOpen : s.openErr
  · intro h
    simp only [processEventLog, hOpen, Bool.false_eq_true, if_false,
      List.mem_cons, List.mem_append] at h
    rcases h with h | h | h
    · exact Action.noConfusion h
    · exact loop_no_storeShutdown s.name s.iters h
    · split at h
      · simp at h
      · rcases mem_closeSuffix h with h | h | h <;> exact Action.noConfusion h
  · intro h
    simp only [processEventLog, hOpen, if_true, List.mem_cons] at h
    rcases h with h | h | h
    · exact Action.noConfusion h
    · exact Action.noConfusion h
    · simp at h

end Beater

namespace Beater

theorem getLast?_cons_getLastD {α : Type _} (r : α) (rs : List α) :
    (r :: rs).getLast? = some (rs.getLastD r) := by
  simp [List.getLast?_cons, List.getLastD_eq_getLast?]

theorem loop_cons_done (name : String) (rest : List Iteration) (rd : ReadResult)
    (pb : Bool) :
    loop name (⟨true, rd, pb⟩ :: rest) = ([], .shutdown) := by
  simp [loop]

theorem loop_cons_err (name : String) (rest : List Iteration) (pb : Bool) :
    loop name (⟨false, .err, pb⟩ :: rest) = ([.logReadError], .readErr) := by
  simp [loop]

theorem loop_cons_empty (name : String) (rest : List Iteration) (pb : Bool) :
    loop name (⟨false, .ok [], pb⟩ :: rest) =
      (.sleep 1 :: (loop name rest).1, (loop name rest).2) := by
  simp [loop]

theorem loop_cons_pub (name : String) (rest : List Iteration) (r : Record)
    (rs : List Record) :
    loop name (⟨false, .ok (r :: rs), true⟩ :: rest) =
      (.publish ((r :: rs).map Record.toMapStr) true ::
        .persist name (rs.getLastD r).recordID (rs.getLastD r).timeCreated ::
        (loop name rest).1,
       (loop name rest).2) := by
  simp [loop]

theorem loop_cons_pubFail (name : String) (rest : List Iteration) (r : Record)
    (rs : List Record) :
    loop name (⟨false, .ok (r :: rs), false⟩ :: rest) =
      ([.publish ((r :: rs).map Record.toMapStr) false], .publishFail) := by
  simp [loop]

theorem loop_zero_not_persist (name : String) (iters : List Iteration)
    (src : String) (id t : Nat) :
    (loop name iters).1[0]? ≠ some (Action.persist src id t) := by
  match iters with
  | [] => simp [loop]
  | ⟨d, rd, pb⟩ :: rest =>
    cases d
    · rcases rd with _ | (_ | ⟨r, rs⟩)
      · rw [loop_cons_err]; simp
      · rw [loop_cons_empty]; simp
      · cases pb
        · rw [loop_cons_pubFail]; simp
        · rw [loop_cons_pub]; simp
    · rw [loop_cons_done]; simp

theorem loop_persist_after_publish (name : String) (iters : List Iteration) :
    ∀ (i : Nat) (src : String) (id t : Nat),
      (loop name iters).1[i + 1]? = some (Action.persist src id t) →
      src = name ∧ ∃ evs, (loop name iters).1[i]? = some (Action.publish evs true) ∧
        evs ≠ [] ∧ evs.getLast? = some ⟨id, t⟩ := by
  induction iters with
  | nil => intro i src id t h; simp [loop] at h
  | cons it rest ih =>
    obtain ⟨d, rd, pb⟩ := it
    intro i src id t h
    cases d
    · rcases rd with _ | (_ | ⟨r, rs⟩)
      · rw [loop_cons_err] at h
        cases i <;> simp at h
      · rw [loop_cons_empty] at h ⊢
        rw [List.getElem?_cons_succ] at h
        cases i with
        | zero => exact absurd h (loop_zero_not_persist name rest src id t)
        | succ j =>
          obtain ⟨h1, evs, h2, h3, h4⟩ := ih j src id t h
          exact ⟨h1, evs, by rw [List.getElem?_cons_succ]; exact h2, h3, h4⟩
      · cases pb
        · rw [loop_cons_pubFail] at h
          cases i <;> simp at h
        · rw [loop_cons_pub] at h ⊢
          cases i with
          | zero =>
            simp only [List.getElem?_cons_succ, List.getElem?_cons_zero,
              Option.some.injEq] at h
            obtain ⟨h1, h2, h3⟩ := Action.persist.inj h
            subst h1; subst h2; subst h3
            refine ⟨rfl, (r :: rs).map Record.toMapStr, by simp, by simp, ?_⟩
            rw [List.getLast?_map, getLast?_cons_getLastD]
            rfl
          | succ j =>
            simp only [List.getElem?_cons_succ] at h
            cases j with
            | zero => exact absurd h (loop_zero_not_persist name rest src id t)
            | succ k =>
              obtain ⟨h1, evs, h2, h3, h4⟩ := ih k src id t h
              refine ⟨h1, evs, ?_, h3, h4⟩
              simp only [List.getElem?_cons_succ]
              exact h2
    · rw [loop_cons_done] at h
      simp at h

end Beater

namespace Beater

theorem loop_publish_persist_next (name : String) (iters : List Iteration) :
    ∀ (i : Nat) (evs : List MapStr),
      (loop name iters).1[i]? = some (Action.publish evs true) →
      evs ≠ [] ∧ ∃ id t, evs.getLast? = some ⟨id, t⟩ ∧
        (loop name iters).1[i + 1]? = some (Action.persist name id t) := by
  induction iters with
  | nil => intro i evs h; simp [loop] at h
  | cons it rest ih =>
    obtain ⟨d, rd, pb⟩ := it
    intro i evs h
    cases d
    · rcases rd with _ | (_ | ⟨r, rs⟩)
      · rw [loop_cons_err] at h
        cases i <;> simp at h
      · rw [loop_cons_empty] at h ⊢
        cases i with
        | zero => simp at h
        | succ j =>
          rw [List.getElem?_cons_succ] at h
          obtain ⟨h1, id, t, h2, h3⟩ := ih j evs h
          exact ⟨h1, id, t, h2, by rw [List.getElem?_cons_succ]; exact h3⟩
      · cases pb
        · rw [loop_cons_pubFail] at h
          cases i with
          | zero => simp at h
          | succ j => simp at h
        · rw [loop_cons_pub] at h ⊢
          cases i with
          | zero =>
            simp only [List.getElem?_cons_zero, Option.some.injEq] at h
            obtain ⟨h1, -⟩ := Action.publish.inj h
            subst h1
            refine ⟨by simp, (rs.getLastD r).recordID, (rs.getLastD r).timeCreated,
              ?_, by simp⟩
            rw [List.getLast?_map, getLast?_cons_getLastD]
            rfl
          | succ j =>
            simp only [List.getElem?_cons_succ] at h
            cases j with
            | zero => simp at h
            | succ k =>
              rw [List.getElem?_cons_succ] at h
              obtain ⟨h1, id, t, h2, h3⟩ := ih k evs h
              refine ⟨h1, id, t, h2, ?_⟩
              simp only [List.getElem?_cons_succ]
              exact h3
    · rw [loop_cons_done] at h
      simp at h

theorem loop_publish_false_tail (name : String) (iters : List Iteration) :
    ∀ (i : Nat) (evs : List MapStr),
      (loop name iters).1[i]? = some (Action.publish evs false) →
      i + 1 = (loop name iters).1.length ∧ (loop name iters).2 = ExitKind.publishFail := by
  induction iters with
  | nil => intro i evs h; simp [loop] at h
  | cons it rest ih =>
    obtain ⟨d, rd, pb⟩ := it
    intro i evs h
    cases d
    · rcases rd with _ | (_ | ⟨r, rs⟩)
      · rw [loop_cons_err] at h
        cases i <;> simp at h
      · rw [loop_cons_empty] at h ⊢
        cases i with
        | zero => simp at h
        | succ j =>
          rw [List.getElem?_cons_succ] at h
          obtain ⟨h1, h2⟩ := ih j evs h
          refine ⟨?_, h2⟩
          simp only [List.length_cons]
          omega
      · cases pb
        · rw [loop_cons_pubFail] at h ⊢
          cases i with
          | zero => simp
          | succ j => simp at h
        · rw [loop_cons_pub] at h ⊢
          cases i with
          | zero => simp at h
          | succ j =>
            simp only [List.getElem?_cons_succ] at h
            cases j with
            | zero => simp at h
            | succ k =>
              rw [List.getElem?_cons_succ] at h
              obtain ⟨h1, h2⟩ := ih k evs h
              refine ⟨?_, h2⟩
              simp only [List.length_cons]
              omega
    · rw [loop_cons_done] at h
      simp at h

end Beater

namespace Beater

theorem loop_persistedIDs_sublist (name : String) (iters : List Iteration) :
    (persistedIDs (loop name iters).1).Sublist ((scriptRecords iters).map Record.recordID) := by
  induction iters with
  | nil => simp [loop, persistedIDs, scriptRecords]
  | cons it rest ih =>
    obtain ⟨d, rd, pb⟩ := it
    cases d
    · rcases rd with _ | (_ | ⟨r, rs⟩)
      · rw [loop_cons_err]
        simp [persistedIDs, scriptRecords, List.flatMap_cons]
      · rw [loop_cons_empty]
        simpa [persistedIDs, scriptRecords, List.flatMap_cons,
          List.filterMap_cons] using ih
      · cases pb
        · rw [loop_cons_pubFail]
          simp [persistedIDs, scriptRecords, List.flatMap_cons, List.filterMap_cons]
        · rw [loop_cons_pub]
          simp only [persistedIDs, List.filterMap_cons, scriptRecords,
            List.flatMap_cons] at ih ⊢
          rw [List.map_append]
          have h1 : ([(rs.getLastD r).recordID]).Sublist ((r :: rs).map Record.recordID) :=
            List.singleton_sublist.mpr
              (List.mem_map_of_mem _ (List.getLastD_mem_cons rs r))
          exact List.Sublist.append h1 ih
    · rw [loop_cons_done]
      simp [persistedIDs]

theorem loop_publishedEventsOf_sublist (name : String) (iters : List Iteration) :
    (publishedEventsOf (loop name iters).1).Sublist ((scriptRecords iters).map Record.toMapStr) := by
  induction iters with
  | nil => simp [loop, publishedEventsOf, scriptRecords]
  | cons it rest ih =>
    obtain ⟨d, rd, pb⟩ := it
    cases d
    · rcases rd with _ | (_ | ⟨r, rs⟩)
      · rw [loop_cons_err]
        simp [publishedEventsOf, scriptRecords, List.flatMap_cons]
      · rw [loop_cons_empty]
        simpa [publishedEventsOf, scriptRecords, List.flatMap_cons] using ih
      · cases pb
        · rw [loop_cons_pubFail]
          simp only [publishedEventsOf, scriptRecords, List.flatMap_cons]
          rw [List.map_append]
          simp
        · rw [loop_cons_pub]
          simp only [publishedEventsOf, scriptRecords, List.flatMap_cons] at ih ⊢
          rw [List.map_append]
          simpa using List.Sublist.append (List.Sublist.refl ((r :: rs).map Record.toMapStr)) ih
    · rw [loop_cons_done]
      simp [publishedEventsOf]

theorem persistedIDs_closeSuffix (b : Bool) : persistedIDs (closeSuffix b) = [] := by
  cases b <;> rfl

theorem publishedEventsOf_closeSuffix (b : Bool) :
    publishedEventsOf (closeSuffix b) = [] := by
  cases b <;> rfl

theorem processEventLog_eq (s : LogScript) (st : EventLogState)
    (h : s.openErr = false) :
    processEventLog s st =
      Action.openSource st.recordNumber ::
        ((loop s.name s.iters).1 ++
          (if (loop s.name s.iters).2 = ExitKind.running then []
           else closeSuffix s.closeErr)) := by
  simp [processEventLog, h]

theorem processEventLog_openErr_eq (s : LogScript) (st : EventLogState)
    (h : s.openErr = true) :
    processEventLog s st = [.openSource st.recordNumber, .logOpenError] := by
  simp [processEventLog, h]

theorem ite_closeSuffix_mem {b : Bool} {k : ExitKind} {a : Action}
    (h : a ∈ (if k = ExitKind.running then [] else closeSuffix b)) :
    a = .logStopProcessing ∨ a = .closeSource ∨ a = .logCloseError := by
  split at h
  · simp at h
  · exact mem_closeSuffix h

theorem persistedIDs_processEventLog (s : LogScript) (st : EventLogState)
    (h : s.openErr = false) :
    persistedIDs (processEventLog s st) = persistedIDs (loop s.name s.iters).1 := by
  rw [processEventLog_eq s st h]
  simp only [persistedIDs, List.filterMap_cons, List.filterMap_append]
  split
  · simp
  · have hc := persistedIDs_closeSuffix s.closeErr
    simp only [persistedIDs] at hc
    simp [hc]

theorem publishedEventsOf_processEventLog (s : LogScript) (st : EventLogState)
    (h : s.openErr = false) :
    publishedEventsOf (processEventLog s st) =
      publishedEventsOf (loop s.name s.iters).1 := by
  rw [processEventLog_eq s st h]
  simp only [publishedEventsOf, List.flatMap_cons, List.flatMap_append]
  split
  · simp
  · have hc := publishedEventsOf_closeSuffix s.closeErr
    simp only [publishedEventsOf] at hc
    simp [hc]

end Beater

namespace Beater

/-- Claim C1: in every execution of the polling worker, a checkpoint persist
occurs only immediately after the publish call for the corresponding batch
returned success, and what is persisted is the last event of that batch — the
checkpoint never reflects a record whose batch publish did not return
success.  The first trace entry is never a persist, and any persist at
position `i + 1` is preceded at position `i` by a successful publish whose
last event carries exactly the persisted record id and timestamp. -/
theorem C1_persist_only_after_publish (s : LogScript) (st : EventLogState) :
    (∀ src id t, (processEventLog s st)[0]? ≠ some (Action.persist src id t)) ∧
    ∀ (i : Nat) (src : String) (id t : Nat),
      (processEventLog s st)[i + 1]? = some (Action.persist src id t) →
      src = s.name ∧ ∃ evs,
        (processEventLog s st)[i]? = some (Action.publish evs true) ∧
        evs ≠ [] ∧ evs.getLast? = some ⟨id, t⟩ := by
  cases hOpen : s.openErr
  · rw [processEventLog_eq s st hOpen]
    constructor
    · intro src id t; simp
    · intro i src id t h
      rw [List.getElem?_cons_succ] at h
      by_cases hi : i < (loop s.name s.iters).1.length
      · rw [List.getElem?_append_left hi] at h
        cases i with
        | zero => exact absurd h (loop_zero_not_persist s.name s.iters src id t)
        | succ j =>
          obtain ⟨h1, evs, h2, h3, h4⟩ :=
            loop_persist_after_publish s.name s.iters j src id t h
          have hj : j < (loop s.name s.iters).1.length :=
            (List.getElem?_eq_some_iff.mp h2).1
          refine ⟨h1, evs, ?_, h3, h4⟩
          rw [List.getElem?_cons_succ, List.getElem?_append_left hj]
          exact h2
      · push_neg at hi
        rw [List.getElem?_append_right hi] at h
        have hmem := List.getElem?_mem h
        rcases ite_closeSuffix_mem hmem with h1 | h1 | h1 <;> simp at h1
  · rw [processEventLog_openErr_eq s st hOpen]
    constructor
    · intro src id t; simp
    · intro i src id t h
      cases i with
      | zero => simp at h
      | succ j => cases j with
        | zero => simp at h
        | succ k => simp at h

/-- Witness for C1: in the demonstration run, the persist of record 2 at
position 2 is immediately preceded by the successful publish of the batch
whose last event is record 2. -/
theorem C1_witness :
    "App" = demoScript.name ∧ ∃ evs,
      (processEventLog demoScript ⟨0, 0⟩)[1]? = some (Action.publish evs true) ∧
      evs ≠ [] ∧ evs.getLast? = some ⟨2, 11⟩ :=
  (C1_persist_only_after_publish demoScript ⟨0, 0⟩).2 1 "App" 2 11 (by decide)

/-- Claim C2: when the publish call returns failure, the worker persists no
checkpoint for that batch and exits the loop immediately: everything after the
failed publish is exactly the deferred cleanup, which contains no persist, and
the loop exit kind is `publishFail`. -/
theorem C2_publish_failure_no_checkpoint (s : LogScript) (st : EventLogState) :
    ∀ (i : Nat) (evs : List MapStr),
      (processEventLog s st)[i]? = some (Action.publish evs false) →
      (processEventLog s st).drop (i + 1) = closeSuffix s.closeErr ∧
      (∀ a ∈ (processEventLog s st).drop (i + 1), ∀ src id t,
        a ≠ Action.persist src id t) ∧
      (loop s.name s.iters).2 = ExitKind.publishFail := by
  intro i evs h
  cases hOpen : s.openErr
  · rw [processEventLog_eq s st hOpen] at h ⊢
    cases i with
    | zero => simp at h
    | succ j =>
      rw [List.getElem?_cons_succ] at h
      by_cases hj : j < (loop s.name s.iters).1.length
      · rw [List.getElem?_append_left hj] at h
        obtain ⟨hlen, hexit⟩ := loop_publish_false_tail s.name s.iters j evs h
        have hC : (if (loop s.name s.iters).2 = ExitKind.running then []
            else closeSuffix s.closeErr) = closeSuffix s.closeErr := by
          rw [hexit]; simp
        rw [hC]
        refine ⟨?_, ?_, hexit⟩
        · rw [List.drop_succ_cons, hlen, List.drop_left]
        · intro a ha src id t
          rw [List.drop_succ_cons, hlen, List.drop_left] at ha
          rcases mem_closeSuffix ha with h1 | h1 | h1 <;> subst h1 <;> simp
      · push_neg at hj
        rw [List.getElem?_append_right hj] at h
        have hmem := List.getElem?_mem h
        rcases ite_closeSuffix_mem hmem with h1 | h1 | h1 <;> simp at h1
  · rw [processEventLog_openErr_eq s st hOpen] at h
    cases i with
    | zero => simp at h
    | succ j => cases j with
      | zero => simp at h
      | succ k => simp at h

/-- Witness for C2: in the demonstration run with a failing second publish,
everything after the failed publish at position 3 is just the cleanup, no
persist occurs there, and the loop exit kind is `publishFail`. -/
theorem C2_witness :
    (processEventLog demoFailScript ⟨0, 0⟩).drop 4 = closeSuffix demoFailScript.closeErr ∧
    (∀ a ∈ (processEventLog demoFailScript ⟨0, 0⟩).drop 4, ∀ src id t,
      a ≠ Action.persist src id t) ∧
    (loop demoFailScript.name demoFailScript.iters).2 = ExitKind.publishFail :=
  C2_publish_failure_no_checkpoint demoFailScript ⟨0, 0⟩ 3
    [⟨4, 13⟩, ⟨5, 14⟩] (by decide)

/-- Claim C3: for every non-empty batch whose publish succeeds, the worker
persists exactly the record id and timestamp of the last event of that batch
as the source's new checkpoint, immediately after the publish. -/
theorem C3_checkpoint_is_last_record (s : LogScript) (st : EventLogState) :
    ∀ (i : Nat) (evs : List MapStr),
      (processEventLog s st)[i]? = some (Action.publish evs true) →
      evs ≠ [] ∧ ∃ id t, evs.getLast? = some ⟨id, t⟩ ∧
        (processEventLog s st)[i + 1]? = some (Action.persist s.name id t) := by
  intro i evs h
  cases hOpen : s.openErr
  · rw [processEventLog_eq s st hOpen] at h ⊢
    cases i with
    | zero => simp at h
    | succ j =>
      rw [List.getElem?_cons_succ] at h
      by_cases hj : j < (loop s.name s.iters).1.length
      · rw [List.getElem?_append_left hj] at h
        obtain ⟨h1, id, t, h2, h3⟩ :=
          loop_publish_persist_next s.name s.iters j evs h
        have hj1 : j + 1 < (loop s.name s.iters).1.length :=
          (List.getElem?_eq_some_iff.mp h3).1
        refine ⟨h1, id, t, h2, ?_⟩
        rw [List.getElem?_cons_succ, List.getElem?_append_left hj1]
        exact h3
      · push_neg at hj
        rw [List.getElem?_append_right hj] at h
        have hmem := List.getElem?_mem h
        rcases ite_closeSuffix_mem hmem with h1 | h1 | h1 <;> simp at h1
  · rw [processEventLog_openErr_eq s st hOpen] at h
    cases i with
    | zero => simp at h
    | succ j => cases j with
      | zero => simp at h
      | succ k => simp at h

/-- Witness for C3: in the demonstration run, the successful publish of the
batch [rec 1, rec 2] at position 1 is immediately followed by the persist of
record 2 with timestamp 11. -/
theorem C3_witness :
    ([⟨1, 10⟩, ⟨2, 11⟩] : List MapStr) ≠ [] ∧ ∃ id t,
      ([⟨1, 10⟩, ⟨2, 11⟩] : List MapStr).getLast? = some ⟨id, t⟩ ∧
      (processEventLog demoScript ⟨0, 0⟩)[1 + 1]? =
        some (Action.persist demoScript.name id t) :=
  C3_checkpoint_is_last_record demoScript ⟨0, 0⟩ 1 [⟨1, 10⟩, ⟨2, 11⟩] (by decide)

/-- Claim C4: if the source yields records with non-decreasing record ids,
then across any worker execution the sequence of persisted checkpoint
positions is non-decreasing, and the events are published in exactly the
order the source yields the records (the published events form a sublist of
the yielded records, in order). -/
theorem C4_monotone_checkpoints (s : LogScript) (st : EventLogState)
    (h : ((scriptRecords s.iters).map Record.recordID).Pairwise (· ≤ ·)) :
    ((persistedIDs (processEventLog s st)).Pairwise (· ≤ ·)) ∧
    (publishedEventsOf (processEventLog s st)).Sublist
      ((scriptRecords s.iters).map Record.toMapStr) := by
  cases hOpen : s.openErr
  · constructor
    · rw [persistedIDs_processEventLog s st hOpen]
      exact List.Pairwise.sublist (loop_persistedIDs_sublist s.name s.iters) h
    · rw [publishedEventsOf_processEventLog s st hOpen]
      exact loop_publishedEventsOf_sublist s.name s.iters
  · rw [processEventLog_openErr_eq s st hOpen]
    constructor
    · simp [persistedIDs]
    · simp [publishedEventsOf]

/-- Witness for C4 at the demonstration script, whose yielded record ids
[1, 2, 3] are non-decreasing. -/
theorem C4_witness :
    ((persistedIDs (processEventLog demoScript ⟨0, 0⟩)).Pairwise (· ≤ ·)) ∧
    (publishedEventsOf (processEventLog demoScript ⟨0, 0⟩)).Sublist
      ((scriptRecords demoScript.iters).map Record.toMapStr) :=
  C4_monotone_checkpoints demoScript ⟨0, 0⟩ (by decide)

end Beater

namespace Beater

/-- Claim C5 is false on the code: after `Setup`, invoking `Stop` twice in
succession faults.  The second call finds `eb.done` non-nil and calls
`close(eb.done)` on an already-closed channel, which panics in Go (`none`
models the fault). -/
theorem C5_counterexample : (Stop setupState).bind Stop = none := rfl

/-- Claim C5 (amended): after `Setup`, a single invocation of `Stop`
transitions the shutdown signal from running to stopping (and closes the
client) without faulting, but `Stop` is not idempotent: a second invocation
in succession faults. -/
theorem C5_stop_once :
    Stop setupState = some ⟨.closedChan, true⟩ ∧
    (Stop setupState).bind Stop = none :=
  ⟨rfl, rfl⟩

/-- Claim C6: in every run of the coordinator, the checkpoint store's
shutdown is called exactly once, and it is the very last action — strictly
after every action of every polling worker. -/
theorem C6_store_shutdown_once_after_workers
    (persisted : List (String × EventLogState)) (logs : List LogScript) :
    (Run persisted logs).count Action.storeShutdown = 1 ∧
    (Run persisted logs).getLast? = some Action.storeShutdown := by
  constructor
  · rw [Run, List.count_append]
    have h0 : ((workerTraces persisted logs).flatten).count Action.storeShutdown = 0 := by
      rw [List.count_eq_zero]
      intro hmem
      rw [List.mem_flatten] at hmem
      obtain ⟨l, hl, hal⟩ := hmem
      rw [workerTraces, List.mem_map] at hl
      obtain ⟨x, hx, rfl⟩ := hl
      exact processEventLog_no_storeShutdown x (statesLookup persisted x.name) hal
    rw [h0]
    rfl
  · rw [Run]
    exact List.getLast?_concat _

/-- Claim C7: if opening a source fails, its worker performs only the open
attempt and the error log — it never publishes or persists anything — and in
a coordinator run its presence leaves every other worker's complete trace
unchanged, followed as always by the store shutdown. -/
theorem C7_open_failure_isolated (persisted : List (String × EventLogState))
    (pre post : List LogScript) (s : LogScript) (st : EventLogState)
    (h : s.openErr = true) :
    processEventLog s st = [.openSource st.recordNumber, .logOpenError] ∧
    (∀ evs ok, Action.publish evs ok ∉ processEventLog s st) ∧
    (∀ src id t, Action.persist src id t ∉ processEventLog s st) ∧
    Run persisted (pre ++ s :: post) =
      (workerTraces persisted pre).flatten ++
        (processEventLog s (statesLookup persisted s.name) ++
          ((workerTraces persisted post).flatten ++ [.storeShutdown])) := by
  refine ⟨processEventLog_openErr_eq s st h, ?_, ?_, ?_⟩
  · intro evs ok
    rw [processEventLog_openErr_eq s st h]
    simp
  · intro src id t
    rw [processEventLog_openErr_eq s st h]
    simp
  · rw [Run, workerTraces]
    simp [List.map_append, List.flatten_append, List.append_assoc, workerTraces]

/-- Witness for C7: an open failure on source "Bad" leaves the full traces of
"App" and "Sys" intact in the coordinator run. -/
theorem C7_witness :
    processEventLog demoOpenFailScript ⟨0, 0⟩ = [.openSource 0, .logOpenError] ∧
    (∀ evs ok, Action.publish evs ok ∉ processEventLog demoOpenFailScript ⟨0, 0⟩) ∧
    (∀ src id t, Action.persist src id t ∉ processEventLog demoOpenFailScript ⟨0, 0⟩) ∧
    Run [] ([demoScript] ++ demoOpenFailScript :: [demoReadErrScript]) =
      (workerTraces [] [demoScript]).flatten ++
        (processEventLog demoOpenFailScript (statesLookup [] demoOpenFailScript.name) ++
          ((workerTraces [] [demoReadErrScript]).flatten ++ [.storeShutdown])) :=
  C7_open_failure_isolated [] [demoScript] [demoReadErrScript]
    demoOpenFailScript ⟨0, 0⟩ rfl

/-- Claim C8: on an empty batch (zero records, no error) the worker sleeps
exactly one second and re-polls: the iteration contributes only a `sleep 1`
action, publishes nothing, leaves the persisted checkpoints unchanged, and
the loop continues as if restarted on the remaining script. -/
theorem C8_empty_batch_backoff (name : String) (it : Iteration)
    (rest : List Iteration) (h1 : it.done = false) (h2 : it.read = .ok []) :
    (loop name (it :: rest)).1 = .sleep 1 :: (loop name rest).1 ∧
    (loop name (it :: rest)).2 = (loop name rest).2 ∧
    persistedIDs (loop name (it :: rest)).1 = persistedIDs (loop name rest).1 ∧
    publishedEventsOf (loop name (it :: rest)).1 =
      publishedEventsOf (loop name rest).1 := by
  obtain ⟨d, rd, pb⟩ := it
  simp only at h1 h2
  subst h1
  subst h2
  rw [loop_cons_empty]
  refine ⟨rfl, rfl, ?_, ?_⟩
  · simp [persistedIDs, List.filterMap_cons]
  · simp [publishedEventsOf, List.flatMap_cons]

/-- Witness for C8 on a one-iteration empty-read script. -/
theorem C8_witness :
    (loop "App" [⟨false, .ok [], true⟩]).1 = .sleep 1 :: (loop "App" []).1 ∧
    (loop "App" [⟨false, .ok [], true⟩]).2 = (loop "App" []).2 ∧
    persistedIDs (loop "App" [⟨false, .ok [], true⟩]).1 =
      persistedIDs (loop "App" []).1 ∧
    publishedEventsOf (loop "App" [⟨false, .ok [], true⟩]).1 =
      publishedEventsOf (loop "App" []).1 :=
  C8_empty_batch_backoff "App" ⟨false, .ok [], true⟩ [] rfl rfl

/-- Claim C9: a read error makes the worker log it and break out of the loop
immediately, publishing and persisting nothing in that iteration; and
whenever the loop exits — shutdown, read failure, or publish failure — the
trace ends with the cleanup, which closes the source (a close failure is
only logged). -/
theorem C9_read_error_cleanup (s : LogScript) (st : EventLogState)
    (it : Iteration) (rest : List Iteration) (h0 : s.openErr = false)
    (h1 : it.done = false) (h2 : it.read = .err) :
    loop s.name (it :: rest) = ([.logReadError], .readErr) ∧
    ((loop s.name s.iters).2 ≠ ExitKind.running →
      processEventLog s st =
        .openSource st.recordNumber ::
          ((loop s.name s.iters).1 ++ closeSuffix s.closeErr)) ∧
    Action.closeSource ∈ closeSuffix s.closeErr := by
  refine ⟨?_, ?_, ?_⟩
  · obtain ⟨d, rd, pb⟩ := it
    simp only at h1 h2
    subst h1
    subst h2
    exact loop_cons_err s.name rest pb
  · intro hk
    rw [processEventLog_eq s st h0, if_neg hk]
  · cases hc : s.closeErr <;> simp [closeSuffix]

/-- Witness for C9 on the "Sys" script that reads one batch and then hits a
read error. -/
theorem C9_witness :
    loop demoReadErrScript.name (⟨false, .err, true⟩ :: []) =
      ([.logReadError], .readErr) ∧
    ((loop demoReadErrScript.name demoReadErrScript.iters).2 ≠ ExitKind.running →
      processEventLog demoReadErrScript ⟨0, 0⟩ =
        .openSource (0 : Nat) ::
          ((loop demoReadErrScript.name demoReadErrScript.iters).1 ++
            closeSuffix demoReadErrScript.closeErr)) ∧
    Action.closeSource ∈ closeSuffix demoReadErrScript.closeErr :=
  C9_read_error_cleanup demoReadErrScript ⟨0, 0⟩ ⟨false, .err, true⟩ [] rfl rfl rfl

/-- Claim C10: a source with no persisted checkpoint entry gets the zero-value
state — the worker calls open with record number 0 — and the absent entry is
not an error: the worker trace proceeds normally. -/
theorem C10_absent_state_zero (persisted : List (String × EventLogState))
    (s : LogScript) (h : persisted.lookup s.name = none) :
    statesLookup persisted s.name = ⟨0, 0⟩ ∧
    (processEventLog s (statesLookup persisted s.name))[0]? =
      some (.openSource 0) := by
  have hz : statesLookup persisted s.name = ⟨0, 0⟩ := by
    rw [statesLookup, h]
    rfl
  refine ⟨hz, ?_⟩
  rw [hz]
  cases hOpen : s.openErr
  · rw [processEventLog_eq s _ hOpen]
    simp
  · rw [processEventLog_openErr_eq s _ hOpen]
    simp

/-- Witness for C10: with an empty persisted-state map, "App" starts from
record number 0. -/
theorem C10_witness :
    statesLookup [] demoScript.name = ⟨0, 0⟩ ∧
    (processEventLog demoScript (statesLookup [] demoScript.name))[0]? =
      some (.openSource 0) :=
  C10_absent_state_zero [] demoScript rfl

end Beater
